import Mathlib

/-!
Verification of the spreadsheet extraction and Markdown reconstruction engine
(`test_openpyxl.py`, class `ExcelExtractor`) against its natural-language
specification.  The Python code is shallowly embedded: cell snapshots and
image records become Lean structures, the mutable `md_lines` list becomes list
concatenation, Python dicts become insertion-ordered association lists, and
the per-instance fallback flag becomes explicit state threading.  Machine
strings are modelled by Lean `String` over explicit character lists so that
every definition is executable by the kernel.
-/

/-! ## Character-list string utilities

Python string operations (`in`, `.join`, `.replace`, `.upper`, `.endswith`)
modelled over `List Char`, matching code-point semantics. -/

/-- Whether `needle` is an initial segment of `hay` (Python `str.startswith`). -/
def startsWithL : List Char → List Char → Bool
  | [], _ => true
  | _ :: _, [] => false
  | a :: as, b :: bs => a == b && startsWithL as bs

/-- Whether `needle` occurs contiguously inside `hay` (Python `needle in hay`). -/
def containsL (needle : List Char) : List Char → Bool
  | [] => needle.isEmpty
  | hay@(_ :: rest) => startsWithL needle hay || containsL needle rest

/-- Whether `hay` ends with `needle` (Python `str.endswith`). -/
def endsWithL (needle hay : List Char) : Bool :=
  startsWithL needle.reverse hay.reverse

/-- Fuel-indexed left-to-right non-overlapping substring replacement. -/
def replaceLAux (needle repl : List Char) : Nat → List Char → List Char
  | 0, _ => []
  | _ + 1, [] => []
  | fuel + 1, hay@(c :: rest) =>
    if needle ≠ [] ∧ startsWithL needle hay then
      repl ++ replaceLAux needle repl fuel (hay.drop needle.length)
    else
      c :: replaceLAux needle repl fuel rest

/-- Python `s.replace(needle, repl)` (non-overlapping, left to right). -/
def strReplace (s needle repl : String) : String :=
  ⟨replaceLAux needle.data repl.data s.data.length s.data⟩

/-- ASCII upper-casing of one character (Python `str.upper` on ASCII data). -/
def upperChar (c : Char) : Char :=
  if 97 ≤ c.toNat ∧ c.toNat ≤ 122 then Char.ofNat (c.toNat - 32) else c

/-- Python `s.upper()` restricted to ASCII data. -/
def strUpper (s : String) : String :=
  ⟨s.data.map upperChar⟩

/-- Python `sep.join(parts)`. -/
def joinSep (sep : String) : List String → String
  | [] => ""
  | [s] => s
  | s :: rest => s ++ sep ++ joinSep sep rest

/-- Python `", ".join(parts)`, as used for the available-sheets error message. -/
def joinComma (parts : List String) : String :=
  joinSep ", " parts

/-- Python `enumerate(xs, start)`. -/
def enumFrom {α : Type} : Nat → List α → List (Nat × α)
  | _, [] => []
  | i, a :: as => (i, a) :: enumFrom (i + 1) as

/-- Lookup in an insertion-ordered association list (Python `dict` read). -/
def lookupA {α : Type} : List (Nat × α) → Nat → Option α
  | [], _ => none
  | (k, v) :: rest, r => if k = r then some v else lookupA rest r

/-- First-occurrence deduplication (iteration order of a Python `dict`/`set`
whose members are subsequently sorted). -/
def dedupAux {α : Type} [DecidableEq α] : List α → List α → List α
  | [], _ => []
  | a :: rest, seen => if a ∈ seen then dedupAux rest seen else a :: dedupAux rest (a :: seen)

/-- Insertion into a sorted list of naturals. -/
def insertSortedNat (a : Nat) : List Nat → List Nat
  | [] => [a]
  | b :: bs => if a ≤ b then a :: b :: bs else b :: insertSortedNat a bs

/-- Python `sorted` on naturals. -/
def sortNat : List Nat → List Nat
  | [] => []
  | a :: as => insertSortedNat a (sortNat as)

/-- Code-point lexicographic `≤` on character lists (Python string comparison). -/
def lexLeCharList : List Char → List Char → Bool
  | [], _ => true
  | _ :: _, [] => false
  | a :: as, b :: bs => if a = b then lexLeCharList as bs else decide (a < b)

/-- Python `s <= t` on strings. -/
def strLe (s t : String) : Bool :=
  lexLeCharList s.data t.data

/-- Insertion into a lexicographically sorted list of strings. -/
def insertSortedStr (a : String) : List String → List String
  | [] => [a]
  | b :: bs => if strLe a b then a :: b :: bs else b :: insertSortedStr a bs

/-- Python `sorted` on strings (lexicographic by code point). -/
def sortStr : List String → List String
  | [] => []
  | a :: as => insertSortedStr a (sortStr as)

/-! ## Data model (Sheet Snapshot, §3 of the spec) -/

/-- A cell value as stored in the snapshot (`cell.value` in openpyxl:
`None`, text, number or boolean; formulas are text beginning with `=`). -/
inductive Value where
  | vNone
  | vStr (s : String)
  | vInt (n : Int)
  | vBool (b : Bool)
deriving DecidableEq

/-- Python `str(value)` for the value types modelled here. -/
def pyStr : Value → String
  | .vNone => "None"
  | .vStr s => s
  | .vInt n => toString n
  | .vBool b => if b then "True" else "False"

/-- A resolved anchor rectangle `(from_col, from_row, to_col, to_row)`,
0-based, as produced by `_parse_drawing_positions`. -/
structure Rect where
  fromCol : Nat
  fromRow : Nat
  toCol : Nat
  toRow : Nat
deriving DecidableEq

/-- One extracted image: filename assigned by the extractor, binary format,
and the optional anchor rectangle (`None` when position is unresolved). -/
structure ImageRecord where
  filename : String
  format : String
  position : Option Rect
deriving DecidableEq

/-- One hyperlink entry of a sheet snapshot. -/
structure Hyperlink where
  coord : String
  url : String
  display : String
deriving DecidableEq

/-- One comment entry of a sheet snapshot. -/
structure CommentRec where
  coord : String
  author : String
  text : String
deriving DecidableEq

/-- One worksheet snapshot: insertion-ordered cell map plus sheet-level
collections, mirroring the `sheet_data` dictionary of `extract_worksheet`. -/
structure SheetData where
  cells : List (String × Value)
  merged_cells : List String
  hyperlinks : List Hyperlink
  comments : List CommentRec
  images : List ImageRecord
deriving DecidableEq

/-! ## Markdown renderer (`generate_markdown`, §4.4 of the spec) -/

/-- Column letters of a cell reference: `''.join(filter(str.isalpha, cell_ref))`. -/
def colOfRef (ref : String) : String :=
  ⟨ref.data.filter Char.isAlpha⟩

/-- Row number of a cell reference: `int(''.join(filter(str.isdigit, cell_ref)))`. -/
def rowOfRef (ref : String) : Nat :=
  (ref.data.filter Char.isDigit).foldl (fun a c => a * 10 + (c.toNat - 48)) 0

/-- Helper for `get_column_letter`, with fuel bounding the base-26 recursion. -/
def colLetterAux : Nat → Nat → List Char
  | 0, _ => []
  | _, 0 => []
  | fuel + 1, n => colLetterAux fuel ((n - 1) / 26) ++ [Char.ofNat (65 + (n - 1) % 26)]

/-- openpyxl `get_column_letter`: 1-based column index to letters. -/
def get_column_letter (n : Nat) : String :=
  ⟨colLetterAux n n⟩

/-- Markdown cell-value formatting (lines 606–619 of `generate_markdown`):
null becomes empty, strings get pipes escaped and newlines collapsed, other
values are stringified with the defensive datetime-prefix cleanup. -/
def formatCellValue : Value → String
  | .vNone => ""
  | .vStr s => strReplace (strReplace s "|" "\\|") "\n" " "
  | v =>
    let t := pyStr v
    if containsL "datetime".data t.data then
      strReplace (strReplace t "datetime.datetime(" "") ")" ""
    else t

/-- One entry of the `image_by_row` grouping: filename plus the
human-readable anchor-range text. -/
structure ImgEntry where
  filename : String
  position_text : String
deriving DecidableEq

/-- The anchor-range label text for a resolved rectangle:
`f"{col_letter_from}{display_row} to {col_letter_to}{row_to}"`. -/
def entryOfRect (filename : String) (rect : Rect) : ImgEntry :=
  ⟨filename,
   get_column_letter (rect.fromCol + 1) ++ toString (rect.fromRow + 1) ++ " to " ++
     get_column_letter (rect.toCol + 1) ++ toString (rect.toRow + 1)⟩

/-- Append an entry to the list held at key `k` of the grouping dict,
creating the key at the end when absent (Python dict insertion semantics). -/
def insertEntry : List (Nat × List ImgEntry) → Nat → ImgEntry → List (Nat × List ImgEntry)
  | [], k, e => [(k, [e])]
  | (k', es) :: rest, k, e =>
    if k' = k then (k', es ++ [e]) :: rest else (k', es) :: insertEntry rest k e

/-- The `image_by_row` dict: every image with a resolved position is keyed by
its display row `from_row + 1`; unresolved images are skipped. -/
def buildImageByRow (images : List ImageRecord) : List (Nat × List ImgEntry) :=
  images.foldl
    (fun acc img =>
      match img.position with
      | none => acc
      | some rect => insertEntry acc (rect.fromRow + 1) (entryOfRect img.filename rect))
    []

/-- The single entry an image would contribute to the group of display row
`r` (`some` exactly when the image is resolved and anchored there). -/
def entryAt (img : ImageRecord) (r : Nat) : Option ImgEntry :=
  match img.position with
  | none => none
  | some rect =>
    if rect.fromRow + 1 = r then some (entryOfRect img.filename rect) else none

/-- All entries of display row `r`, in image order. -/
def groupOf (images : List ImageRecord) (r : Nat) : List ImgEntry :=
  images.filterMap (fun img => entryAt img r)

/-- The two Markdown table header lines built from the sorted column set. -/
def tableHeaderLines (cols : List String) : List String :=
  ["| " ++ joinSep " | " cols ++ " |",
   "|" ++ joinSep "|" (List.replicate cols.length "---") ++ "|"]

/-- The labeled block emitted for one image group: per image, the anchor
label, a blank line, the image reference, and a blank line. -/
def imageBlock (es : List ImgEntry) : List String :=
  (es.map (fun e =>
    ["**Image at " ++ e.position_text ++ ":**", "", "![Image](" ++ e.filename ++ ")", ""])).flatten

/-- `rows_dict[row][col]` read: last-written value among cells whose
reference parses to row `r` and column `c`. -/
def cellAt (cells : List (String × Value)) (r : Nat) (c : String) : Option Value :=
  cells.foldl
    (fun acc p => if rowOfRef p.1 = r ∧ colOfRef p.1 = c then some p.2 else acc)
    none

/-- One emitted Markdown data row for row `r` over the sorted column set. -/
def dataRowLine (cells : List (String × Value)) (cols : List String) (r : Nat) : String :=
  "| " ++ joinSep " | "
      (cols.map (fun c =>
        match cellAt cells r c with
        | some v => formatCellValue v
        | none => "")) ++ " |"

/-- The gap scan before a data row (lines 589–599): for every candidate row
in `range(last_row + 1, row_num)` holding an image group, close the table,
emit the group's block, and reopen the table header. -/
def gapLines (ibr : List (Nat × List ImgEntry)) (cols : List String) (lo cnt : Nat) :
    List String :=
  ((List.range' lo cnt).map (fun cr =>
    match lookupA ibr cr with
    | none => []
    | some es => [""] ++ imageBlock es ++ tableHeaderLines cols)).flatten

/-- All lines contributed by one data row: gap-scan interruptions, the data
row itself, and the `row_num + 1` image check (which reopens the header only
when more data rows follow, i.e. `row_num < sorted_rows[-1]`). -/
def rowSegment (cells : List (String × Value)) (cols : List String)
    (ibr : List (Nat × List ImgEntry)) (maxRow last r : Nat) : List String :=
  gapLines ibr cols (last + 1) (r - (last + 1)) ++
    [dataRowLine cells cols r] ++
    (match lookupA ibr (r + 1) with
     | none => []
     | some es =>
       [""] ++ imageBlock es ++ (if r < maxRow then tableHeaderLines cols else []))

/-- The main row loop of `generate_markdown` (lines 586–637), with the
mutable `last_row` threaded explicitly. -/
def renderRows (cells : List (String × Value)) (cols : List String)
    (ibr : List (Nat × List ImgEntry)) (maxRow : Nat) : List Nat → Nat → List String
  | [], _ => []
  | r :: rest, last =>
    rowSegment cells cols ibr maxRow last r ++ renderRows cells cols ibr maxRow rest r

/-- Largest key of the `image_by_row` dict, `max(image_by_row.keys())`. -/
def maxKeyG (ibr : List (Nat × List ImgEntry)) : Option Nat :=
  match ibr.map Prod.fst with
  | [] => none
  | k :: ks => some (ks.foldl Nat.max k)

/-- Images keyed beyond the last data row (lines 640–648): scanned without
reopening the table. -/
def trailingLines (ibr : List (Nat × List ImgEntry)) (maxRow : Nat) : List String :=
  let hi := match maxKeyG ibr with
    | none => maxRow + 1
    | some k => k + 1
  ((List.range' (maxRow + 1) (hi - (maxRow + 1))).map (fun cr =>
    match lookupA ibr cr with
    | none => []
    | some es => [""] ++ imageBlock es)).flatten

/-- Distinct data rows of the cell map, sorted ascending. -/
def sortedRowsOf (cells : List (String × Value)) : List Nat :=
  sortNat (dedupAux (cells.map (fun p => rowOfRef p.1)) [])

/-- Distinct column letters of the cell map, sorted lexicographically. -/
def colsOf (cells : List (String × Value)) : List String :=
  sortStr (dedupAux (cells.map (fun p => colOfRef p.1)) [])

/-- The table branch of the per-sheet rendering (`if cells:`). -/
def cellTableLines (cells : List (String × Value)) (images : List ImageRecord) :
    List String :=
  let ibr := buildImageByRow images
  let cols := colsOf cells
  let rows := sortedRowsOf cells
  match rows.getLast? with
  | none => []
  | some maxRow =>
    if cols.isEmpty then []
    else
      tableHeaderLines cols ++ renderRows cells cols ibr maxRow rows 0 ++
        trailingLines ibr maxRow ++ [""]

/-- The `elif images:` branch (lines 651–664): a sheet with no cell data
emits each image directly, labelling only the resolved ones. -/
def noCellImagesLines (images : List ImageRecord) : List String :=
  (images.map (fun img =>
    (match img.position with
     | some rect =>
       ["**Image at " ++ get_column_letter (rect.fromCol + 1) ++
          toString (rect.fromRow + 1) ++ " to " ++
          get_column_letter (rect.toCol + 1) ++ toString (rect.toRow + 1) ++ ":**"]
     | none => []) ++
    ["", "![Image](" ++ img.filename ++ ")", ""])).flatten

/-- The trailing Hyperlinks section, emitted only when non-empty. -/
def hyperlinkSection (hs : List Hyperlink) : List String :=
  if hs.isEmpty then []
  else
    ["### Hyperlinks", ""] ++
      hs.map (fun h => "- **" ++ h.coord ++ "**: [" ++ h.display ++ "](" ++ h.url ++ ")") ++
      [""]

/-- The trailing Comments section, emitted only when non-empty. -/
def commentSection (cs : List CommentRec) : List String :=
  if cs.isEmpty then []
  else
    ["### Comments", ""] ++
      cs.map (fun c =>
        "- **" ++ c.coord ++ "** (" ++ c.author ++ "): " ++ strReplace c.text "\n" " ") ++
      [""]

/-- All Markdown lines of one sheet (lines 531–686 of `generate_markdown`). -/
def sheetLines (name : String) (sd : SheetData) : List String :=
  ["## " ++ name, ""] ++
    (if sd.cells.isEmpty then
      (if sd.images.isEmpty then [] else noCellImagesLines sd.images)
     else cellTableLines sd.cells sd.images) ++
    hyperlinkSection sd.hyperlinks ++
    commentSection sd.comments

/-- `generate_markdown`: the full rendered document text for the extracted
sheets, joined by newlines (the file write is the caller's side effect). -/
def generate_markdown (excel_basename : String) (sheets : List (String × SheetData)) :
    String :=
  joinSep "\n"
    (["# " ++ excel_basename, ""] ++ (sheets.map (fun p => sheetLines p.1 p.2)).flatten)

/-! ## Structured (JSON) serializer (`save_to_json`, §4.5 of the spec) -/

/-- JSON string escaping for the value payloads. -/
def jsonStr (s : String) : String :=
  "\"" ++ strReplace (strReplace s "\\" "\\\\") "\"" "\\\"" ++ "\""

/-- JSON form of one cell value. -/
def jsonOfValue : Value → String
  | .vNone => "null"
  | .vStr s => jsonStr s
  | .vInt n => toString n
  | .vBool b => if b then "true" else "false"

/-- JSON form of an optional anchor rectangle. -/
def jsonOfPosition : Option Rect → String
  | none => "null"
  | some r =>
    "[" ++ toString r.fromCol ++ ", " ++ toString r.fromRow ++ ", " ++
      toString r.toCol ++ ", " ++ toString r.toRow ++ "]"

/-- JSON form of one sheet snapshot (field order fixed by the builder). -/
def jsonOfSheet (sd : SheetData) : String :=
  "\x7b\"cells\": \x7b" ++
    joinComma (sd.cells.map (fun p => jsonStr p.1 ++ ": " ++ jsonOfValue p.2)) ++
    "\x7d, \"merged_cells\": [" ++ joinComma (sd.merged_cells.map jsonStr) ++
    "], \"hyperlinks\": \x7b" ++
    joinComma (sd.hyperlinks.map (fun h =>
      jsonStr h.coord ++ ": \x7b\"url\": " ++ jsonStr h.url ++ ", \"display\": " ++
        jsonStr h.display ++ "\x7d")) ++
    "\x7d, \"comments\": \x7b" ++
    joinComma (sd.comments.map (fun c =>
      jsonStr c.coord ++ ": \x7b\"text\": " ++ jsonStr c.text ++ ", \"author\": " ++
        jsonStr c.author ++ "\x7d")) ++
    "\x7d, \"images\": [" ++
    joinComma (sd.images.map (fun i =>
      "\x7b\"filename\": " ++ jsonStr i.filename ++ ", \"format\": " ++ jsonStr i.format ++
        ", \"position\": " ++ jsonOfPosition i.position ++ "\x7d")) ++
    "]\x7d"

/-- `save_to_json`: deterministic structured serialization of the extracted
data (`json.dump` of the snapshot dictionary, modelled as a pure function of
the snapshot; the file write is the caller's side effect). -/
def save_to_json (sheets : List (String × SheetData)) : String :=
  "\x7b\"sheets\": \x7b" ++
    joinComma (sheets.map (fun p => jsonStr p.1 ++ ": " ++ jsonOfSheet p.2)) ++
    "\x7d\x7d"

/-! ## Drawing-anchor resolver (`_parse_drawing_positions`, §4.2 of the spec) -/

/-- One anchor element of a drawing fragment: its variant (`twoCellAnchor`
vs `oneCellAnchor`), the `from` sub-element's column/row when present, and
the `to` sub-element's column/row when present. -/
structure Anchor where
  isTwoCell : Bool
  fromPos : Option (Nat × Nat)
  toPos : Option (Nat × Nat)
deriving DecidableEq

/-- One drawing-definition fragment: either a parse failure (malformed XML,
missing namespace) or its anchor elements in document order. -/
abbrev Fragment := Except Unit (List Anchor)

/-- The archive's drawing entries: `xl/drawings/drawing{i}.xml` when present. -/
abbrev Archive := Nat → Option Fragment

/-- The positions dict, keys modelling `image_{idx}` by the index `idx`. -/
abbrev PosMap := List (Nat × Rect)

/-- Overwriting insertion into the positions dict (Python dict write). -/
def posInsert : PosMap → Nat → Rect → PosMap
  | [], k, v => [(k, v)]
  | (k', v') :: rest, k, v =>
    if k' = k then (k', v) :: rest else (k', v') :: posInsert rest k v

/-- The rectangle stored for one anchor (lines 172–185): the `from` position
is required, the `to` position defaults to `from` when absent. -/
def rectOfAnchor (a : Anchor) : Option Rect :=
  match a.fromPos with
  | none => none
  | some (fc, fr) =>
    match a.toPos with
    | some (tc, tr) => some ⟨fc, fr, tc, tr⟩
    | none => some ⟨fc, fr, fc, fr⟩

/-- Anchors in the order the resolver visits them:
`findall('.//xdr:twoCellAnchor') + findall('.//xdr:oneCellAnchor')`, i.e.
all two-cell anchors in document order, then all one-cell anchors. -/
def anchorOrder (anchors : List Anchor) : List Anchor :=
  anchors.filter (fun a => a.isTwoCell) ++ anchors.filter (fun a => !a.isTwoCell)

/-- The anchor loop: each anchor with a readable `from` is stored under the
running index (starting at `idx`), which only then increments. -/
def addAnchorsAux : List Anchor → Nat → PosMap → PosMap
  | [], _, m => m
  | a :: rest, idx, m =>
    match rectOfAnchor a with
    | none => addAnchorsAux rest idx m
    | some rect => addAnchorsAux rest (idx + 1) (posInsert m idx rect)

/-- Parsing one well-formed fragment: the anchor loop over the resolver's
visit order, with the per-fragment index restarting at 1. -/
def parseFragment (anchors : List Anchor) (m : PosMap) : PosMap :=
  addAnchorsAux (anchorOrder anchors) 1 m

/-- Modelled from the spec: the claimed assignment order, "sequential index
in document order" with two-cell and one-cell anchors interleaved as they
occur in the fragment's XML. -/
def parseFragmentDocOrder (anchors : List Anchor) (m : PosMap) : PosMap :=
  addAnchorsAux anchors 1 m

/-- The fragment loop (lines 156–186): indices 1–9 are probed in order;
absent entries are skipped; the single surrounding `try` makes any fragment
failure abort the remaining iterations while keeping what was accumulated. -/
def scanDrawings (ar : Archive) : List Nat → PosMap → PosMap
  | [], m => m
  | i :: rest, m =>
    match ar i with
    | none => scanDrawings ar rest m
    | some (Except.error _) => m
    | some (Except.ok anchors) => scanDrawings ar rest (parseFragment anchors m)

/-- `_parse_drawing_positions`: best-effort position resolution over the
fixed candidate entries `xl/drawings/drawing1.xml` … `drawing9.xml`. -/
def parse_drawing_positions (ar : Archive) (sheet_name : String) : PosMap :=
  scanDrawings ar (List.range' 1 9) []

/-- Modelled from the spec: per-fragment error containment — a failing
fragment degrades to no positions while the remaining fragments are still
parsed. -/
def scanPerFragment (ar : Archive) : List Nat → PosMap → PosMap
  | [], m => m
  | i :: rest, m =>
    match ar i with
    | none => scanPerFragment ar rest m
    | some (Except.error _) => scanPerFragment ar rest m
    | some (Except.ok anchors) => scanPerFragment ar rest (parseFragment anchors m)

/-- Modelled from the spec: the resolver as it would behave with the
claimed per-fragment catch. -/
def parsePositionsPerFragmentSpec (ar : Archive) (sheet_name : String) : PosMap :=
  scanPerFragment ar (List.range' 1 9) []

/-- Whether a fragment parsed successfully. -/
def fragOk : Fragment → Bool
  | Except.ok _ => true
  | Except.error _ => false

/-- One step of folding well-formed fragments into the positions dict. -/
def fragStep (m : PosMap) (f : Fragment) : PosMap :=
  match f with
  | Except.ok anchors => parseFragment anchors m
  | Except.error _ => m

/-- The drawing fragments actually present in the archive, in index order. -/
def presentFrags (ar : Archive) : List Fragment :=
  (List.range' 1 9).filterMap ar

/-- The rectangles of the anchors that receive keys, in key order. -/
def validRects (anchors : List Anchor) : List Rect :=
  anchors.filterMap rectOfAnchor

/-- The rectangle stored under the 1-based key `k` by one fragment. -/
def nthRect (anchors : List Anchor) (k : Nat) : Option Rect :=
  if k = 0 then none else (validRects anchors).get? (k - 1)

/-- An archive holding exactly two well-formed fragments, as
`drawing1.xml` and `drawing2.xml`. -/
def archive2 (a b : List Anchor) : Archive := fun i =>
  if i = 1 then some (Except.ok a) else if i = 2 then some (Except.ok b) else none

/-! ## Image extraction (`extract_images`, §4.3 of the spec) -/

/-- One image of the worksheet's typed image collection (`worksheet._images`). -/
structure AttachedImage where
  format : String
deriving DecidableEq

/-- Whether an archive entry is an image blob of the media directory:
`'xl/media/' in f and not f.endswith('/')`. -/
def isMediaFile (f : String) : Bool :=
  containsL "xl/media/".data f.data && !endsWithL "/".data f.data

/-- Splitting a character list on a separator character. -/
def splitOnCharL (c : Char) : List Char → List (List Char)
  | [] => [[]]
  | ch :: rest =>
    let r := splitOnCharL c rest
    if ch = c then [] :: r
    else
      match r with
      | [] => [[ch]]
      | g :: gs => (ch :: g) :: gs

/-- File extension of a media entry (`os.path.splitext(...)[1][1:]`):
the last dot-suffix of the final path component, where leading dots of the
component do not start an extension. -/
def extOf (f : String) : String :=
  let base := (splitOnCharL '/' f.data).getLastD []
  let rest := base.dropWhile (fun ch => ch = '.')
  let parts := splitOnCharL '.' rest
  if parts.length ≤ 1 then "" else ⟨parts.getLastD []⟩

/-- The record built for the `idx`-th media blob of the archive-scan
fallback (1-based), joined positionally against the resolved anchors. -/
def mediaRecord (positions : PosMap) (idx : Nat) (f : String) : ImageRecord :=
  let ext := if extOf f = "" then "png" else extOf f
  ⟨"workbook_image_" ++ toString idx ++ "." ++ ext, strUpper ext, lookupA positions idx⟩

/-- All records produced by the archive-scan fallback: one per media blob. -/
def mediaRecordsOf (namelist : List String) (positions : PosMap) : List ImageRecord :=
  (enumFrom 1 (namelist.filter isMediaFile)).map (fun p => mediaRecord positions p.1 p.2)

/-- The records produced by the attached-image strategy (method 1): the
sheet-qualified filename and the positional join by sequential index. -/
def attachedRecords (sheet_name : String) (attached : List AttachedImage)
    (positions : PosMap) : List ImageRecord :=
  (enumFrom 0 attached).map (fun p =>
    ⟨sheet_name ++ "_image_" ++ toString (p.1 + 1) ++ "." ++ p.2.format, p.2.format,
      lookupA positions (p.1 + 1)⟩)

/-- `extract_images` for one sheet: method 1 when the typed collection is
non-empty; otherwise the archive-scan fallback, guarded by the one-shot
instance flag `_images_extracted_from_zip` (returned updated). -/
def extract_images (flag : Bool) (sheet_name : String) (attached : List AttachedImage)
    (namelist : List String) (positions : PosMap) : List ImageRecord × Bool :=
  let method1 := attachedRecords sheet_name attached positions
  if !method1.isEmpty then (method1, flag)
  else if flag then ([], flag)
  else (mediaRecordsOf namelist positions, true)

/-- The inputs one worksheet offers to image extraction. -/
structure SheetInput where
  name : String
  attached : List AttachedImage
deriving DecidableEq

/-- Sequential image extraction over the workbook's sheets by one extractor
instance: per sheet, the extracted records and whether the fallback ran
there; the one-shot flag is threaded through and also returned. -/
def runSheets (namelist : List String) (positions : PosMap) :
    Bool → List SheetInput → List (List ImageRecord × Bool) × Bool
  | flag, [] => ([], flag)
  | flag, s :: rest =>
    let step := extract_images flag s.name s.attached namelist positions
    let next := runSheets namelist positions step.2 rest
    ((step.1, !flag && step.2) :: next.1, next.2)

/-! ## Cell walk and single-sheet extraction (`extract_worksheet`,
`extract_single_sheet`) -/

/-- One cell as reported by the container: coordinate, value, and whether
any styling attribute is set (`cell.has_style`). -/
structure CellInput where
  coordinate : String
  value : Value
  has_style : Bool
deriving DecidableEq

/-- The cell walk of `extract_worksheet` (lines 353–360): a cell is
materialized exactly when `cell.value is not None or cell.has_style`. -/
def extract_worksheet_cells (ws : List CellInput) : List (String × Value) :=
  ws.filterMap (fun c =>
    if (!(c.value == Value.vNone)) || c.has_style then some (c.coordinate, c.value)
    else none)

/-- A loaded workbook: ordered sheet names and per-sheet reported cells. -/
structure Workbook where
  sheetnames : List String
  sheetsIn : List (String × List CellInput)
deriving DecidableEq

/-- The error message of `extract_single_sheet` for an absent sheet name:
`f"Sheet '{sheet_name}' not found. Available sheets: {available_sheets}"`. -/
def sheetErrMsg (sheet_name : String) (names : List String) : String :=
  "Sheet '" ++ sheet_name ++ "' not found. Available sheets: " ++ joinComma names

/-- `extract_single_sheet` (lines 431–462): the name-existence check with
its enumerating error, then the cell walk of the requested sheet. -/
def extract_single_sheet (wb : Workbook) (sheet_name : String) :
    Except String (List (String × Value)) :=
  if wb.sheetnames.contains sheet_name then
    Except.ok (extract_worksheet_cells
      (((wb.sheetsIn.find? (fun p => p.1 == sheet_name)).map (fun p => p.2)).getD []))
  else
    Except.error (sheetErrMsg sheet_name wb.sheetnames)

/-! ## Concrete instances used by counterexamples and witnesses -/

/-- A fragment whose XML interleaves a one-cell anchor before a two-cell
anchor, in document order. -/
def interleavedFrag : List Anchor :=
  [⟨false, some (5, 5), none⟩, ⟨true, some (0, 0), some (1, 1)⟩]

/-- An archive whose first drawing fragment is malformed while its second
is well-formed. -/
def failFirstArchive : Archive := fun i =>
  if i = 1 then some (Except.error ())
  else if i = 2 then some (Except.ok [⟨true, some (1, 2), some (3, 4)⟩])
  else none

/-- A sheet with cell data and one image of unresolved position. -/
def ghostSheet : SheetData :=
  { cells := [("A1", Value.vStr "x")]
    merged_cells := []
    hyperlinks := []
    comments := []
    images := [⟨"ghost.png", "PNG", none⟩] }

/-- The snapshot of the C2 scenario: merge A1:B1, cell A1 = "Title", one
image anchored at rows 3–4 and columns 0–1, and populated rows 1 and 5. -/
def titleSheet : SheetData :=
  { cells := [("A1", Value.vStr "Title"), ("A5", Value.vStr "End")]
    merged_cells := ["A1:B1"]
    hyperlinks := []
    comments := []
    images := [⟨"Sheet1_image_1.png", "PNG", some ⟨0, 3, 1, 4⟩⟩] }

/-- A workbook containing only the sheet "Data". -/
def dataOnlyWorkbook : Workbook :=
  { sheetnames := ["Data"], sheetsIn := [("Data", [])] }

/-- A two-anchor archive used to witness the fragment-scan properties. -/
def witFragA : List Anchor := [⟨true, some (1, 1), some (2, 2)⟩]

/-- Second witness fragment. -/
def witFragB : List Anchor := [⟨true, some (7, 8), some (9, 9)⟩]

/-- Witness archive with fragments at indices 1 and 2 only. -/
def witArchive : Archive := archive2 witFragA witFragB

/-- The witness archive with an extra fragment at index 10, which the
resolver must never read. -/
def witArchiveExt : Archive := fun i =>
  if i = 10 then some (Except.ok witFragA) else witArchive i

/-- Witness namelist holding one media blob. -/
def witNamelist : List String := ["xl/media/image1.png"]

/-- Witness sheet with one attached image. -/
def witSheetA : SheetInput := ⟨"S1", [⟨"png"⟩]⟩

/-- Witness sheet with no attached images (first fallback trigger). -/
def witSheetB : SheetInput := ⟨"S2", []⟩

/-- Witness sheet with no attached images, processed after the trigger. -/
def witSheetC : SheetInput := ⟨"S3", []⟩

/-- The witness workbook's sheet sequence. -/
def witSheets : List SheetInput := [witSheetA, witSheetB, witSheetC]

/-- A sheet with no cell data and one unresolved-position image. -/
def noCellsSheet : SheetData :=
  { cells := []
    merged_cells := []
    hyperlinks := []
    comments := []
    images := [⟨"noCells.png", "PNG", none⟩] }

/-! ## Resolver lemmas -/

theorem lookupA_posInsert (m : PosMap) (k k' : Nat) (v : Rect) :
    lookupA (posInsert m k v) k' = if k' = k then some v else lookupA m k' := by
  induction m with
  | nil =>
    by_cases h : k' = k
    · simp [posInsert, lookupA, h]
    · simp [posInsert, lookupA, h, Ne.symm h]
  | cons hd tl ih =>
    obtain ⟨k1, v1⟩ := hd
    by_cases h1 : k1 = k
    · subst h1
      by_cases h2 : k' = k1
      · subst h2
        simp [posInsert, lookupA]
      · simp [posInsert, lookupA, h2, Ne.symm h2]
    · by_cases h2 : k' = k
      · subst h2
        simp [posInsert, lookupA, h1, ih]
      · simp [posInsert, lookupA, h1, h2, ih]

theorem addAux_lookup (anchors : List Anchor) (idx : Nat) (m : PosMap) (k : Nat) :
    lookupA (addAnchorsAux anchors idx m) k =
      if idx ≤ k then
        match (validRects anchors).get? (k - idx) with
        | some v => some v
        | none => lookupA m k
      else lookupA m k := by
  induction anchors generalizing idx m with
  | nil =>
    simp only [addAnchorsAux, validRects, List.filterMap_nil, List.get?_nil]
    split <;> rfl
  | cons a rest ih =>
    simp only [addAnchorsAux]
    cases hr : rectOfAnchor a with
    | none =>
      rw [ih]
      simp [validRects, List.filterMap_cons, hr]
    | some rect =>
      rw [ih]
      simp only [validRects, List.filterMap_cons, hr]
      rcases Nat.lt_trichotomy k idx with hlt | heq | hgt
      · rw [if_neg (by omega), if_neg (by omega), lookupA_posInsert, if_neg (by omega)]
      · rw [if_neg (by omega), lookupA_posInsert, if_pos heq, if_pos (by omega)]
        have h0 : k - idx = 0 := by omega
        rw [h0]
        rfl
      · rw [if_pos (by omega), if_pos (by omega), lookupA_posInsert, if_neg (by omega)]
        have hk : k - idx = (k - (idx + 1)) + 1 := by omega
        rw [hk]
        rfl

theorem parseFragment_lookup (anchors : List Anchor) (m : PosMap) (k : Nat)
    (hk : 1 ≤ k) :
    lookupA (parseFragment anchors m) k =
      match nthRect (anchorOrder anchors) k with
      | some v => some v
      | none => lookupA m k := by
  rw [parseFragment, addAux_lookup, if_pos hk, nthRect, if_neg (by omega)]

theorem scanDrawings_congr (ar ar' : Archive) (idxs : List Nat) (m : PosMap)
    (h : ∀ i ∈ idxs, ar i = ar' i) :
    scanDrawings ar idxs m = scanDrawings ar' idxs m := by
  induction idxs generalizing m with
  | nil => rfl
  | cons i rest ih =>
    have hi : ar i = ar' i := h i (List.mem_cons_self i rest)
    have hrest : ∀ j ∈ rest, ar j = ar' j := fun j hj => h j (List.mem_cons_of_mem i hj)
    simp only [scanDrawings, hi]
    cases ar' i with
    | none => exact ih m hrest
    | some f =>
      cases f with
      | error e => rfl
      | ok anchors => exact ih (parseFragment anchors m) hrest

theorem scanDrawings_takeWhile (ar : Archive) (idxs : List Nat) (m : PosMap) :
    scanDrawings ar idxs m =
      ((idxs.filterMap ar).takeWhile fragOk).foldl fragStep m := by
  induction idxs generalizing m with
  | nil => rfl
  | cons i rest ih =>
    simp only [scanDrawings, List.filterMap_cons]
    cases ar i with
    | none => exact ih m
    | some f =>
      cases f with
      | error e => simp [List.takeWhile_cons, fragOk]
      | ok anchors =>
        simp only [List.takeWhile_cons, fragOk, if_pos, List.foldl_cons]
        exact ih (parseFragment anchors m)

theorem option_match_id {α : Type} (o : Option α) :
    (match o with
     | some v => some v
     | none => (none : Option α)) = o := by
  cases o <;> rfl

/-! ## Claims C3, C4, C10: the drawing-anchor resolver -/

/-- C3 counterexample: for a fragment whose XML holds a one-cell anchor
before a two-cell anchor, the key `image_1` does not go to the first anchor
in document order — the resolver visits all two-cell anchors first. -/
theorem claim3_counterexample :
    lookupA (parseFragment interleavedFrag []) 1 ≠
      lookupA (parseFragmentDocOrder interleavedFrag []) 1 := by
  decide

/-- C3 (amended): anchors receive the sequential keys `image_1, image_2, …`
restarting at 1 per fragment, but in the visit order "all two-cell anchors
in document order, then all one-cell anchors in document order"
(`anchorOrder`) — not in interleaved document order; and a one-cell anchor
(no `to` sub-element) is stored with its to-column/to-row equal to its
from-column/from-row. -/
theorem claim3_anchor_order :
    (∀ (anchors : List Anchor) (m : PosMap) (k : Nat), 1 ≤ k →
      lookupA (parseFragment anchors m) k =
        match nthRect (anchorOrder anchors) k with
        | some v => some v
        | none => lookupA m k) ∧
    (∀ (a : Anchor) (fc fr : Nat), a.fromPos = some (fc, fr) → a.toPos = none →
      rectOfAnchor a = some ⟨fc, fr, fc, fr⟩) := by
  constructor
  · exact parseFragment_lookup
  · intro a fc fr h1 h2
    simp [rectOfAnchor, h1, h2]

/-- C3 witness: concrete instantiation of both conjuncts. -/
theorem claim3_witness :
    lookupA (parseFragment interleavedFrag []) 1 = some ⟨0, 0, 1, 1⟩ ∧
    rectOfAnchor ⟨false, some (5, 5), none⟩ = some ⟨5, 5, 5, 5⟩ := by
  constructor
  · rw [claim3_anchor_order.1 interleavedFrag [] 1 (by decide)]
    decide
  · exact claim3_anchor_order.2 ⟨false, some (5, 5), none⟩ 5 5 rfl rfl

/-- C4 counterexample: with a malformed first fragment and a well-formed
second fragment, the resolver does not behave like the claimed per-fragment
catch — the second fragment is never parsed. -/
theorem claim4_counterexample :
    parse_drawing_positions failFirstArchive "Sheet1" ≠
      parsePositionsPerFragmentSpec failFirstArchive "Sheet1" := by
  decide

/-- C4 (amended): a fragment failure is caught inside the resolver — the
function totally returns a positions dict, never an error — but the single
surrounding handler aborts the scan: exactly the well-formed prefix of the
present fragments is folded in, so fragments after the first malformed one
are not parsed, while positions accumulated before the failure are kept. -/
theorem claim4_fragment_failure (ar : Archive) (s : String) :
    parse_drawing_positions ar s =
      ((presentFrags ar).takeWhile fragOk).foldl fragStep [] := by
  rw [parse_drawing_positions, scanDrawings_takeWhile]
  rfl

/-- C10: the resolver ignores its sheet-name argument; it depends only on
the archive entries `drawing1.xml`–`drawing9.xml` (entries at index 0 or
10 and beyond are never read); and with two well-formed fragments the
per-fragment key restart makes the later fragment overwrite the earlier
fragment's same-index entries. -/
theorem claim10_drawing_scan :
    (∀ (ar : Archive) (s s' : String),
      parse_drawing_positions ar s = parse_drawing_positions ar s') ∧
    (∀ (ar ar' : Archive) (s : String), (∀ i, 1 ≤ i → i ≤ 9 → ar i = ar' i) →
      parse_drawing_positions ar s = parse_drawing_positions ar' s) ∧
    (∀ (a b : List Anchor) (s : String) (k : Nat), 1 ≤ k →
      lookupA (parse_drawing_positions (archive2 a b) s) k =
        match nthRect (anchorOrder b) k with
        | some v => some v
        | none => nthRect (anchorOrder a) k) := by
  refine ⟨fun ar s s' => rfl, fun ar ar' s h => ?_, fun a b s k hk => ?_⟩
  · rw [parse_drawing_positions, parse_drawing_positions]
    apply scanDrawings_congr
    intro i hi
    rw [List.mem_range'] at hi
    exact h i (by omega) (by omega)
  · have hev : parse_drawing_positions (archive2 a b) s =
        parseFragment b (parseFragment a []) := rfl
    rw [hev, parseFragment_lookup b (parseFragment a []) k hk]
    cases hb : nthRect (anchorOrder b) k with
    | some v => rfl
    | none =>
      rw [parseFragment_lookup a [] k hk]
      cases ha : nthRect (anchorOrder a) k with
      | some v => rfl
      | none => rfl

/-- C10 witness: the sheet name does not matter, an extra fragment at
index 10 does not matter, and `image_1` of the two-fragment archive comes
from the second fragment. -/
theorem claim10_witness :
    parse_drawing_positions witArchive "Sheet1" = parse_drawing_positions witArchive "Other" ∧
    parse_drawing_positions witArchive "Sheet1" = parse_drawing_positions witArchiveExt "Sheet1" ∧
    lookupA (parse_drawing_positions (archive2 witFragA witFragB) "Sheet1") 1 = some ⟨7, 8, 9, 9⟩ := by
  refine ⟨claim10_drawing_scan.1 witArchive "Sheet1" "Other",
    claim10_drawing_scan.2.1 witArchive witArchiveExt "Sheet1" ?_, ?_⟩
  · intro i h1 h2
    have hne : i ≠ 10 := by omega
    simp [witArchiveExt, hne]
  · rw [claim10_drawing_scan.2.2 witFragA witFragB "Sheet1" 1 (by decide)]
    decide

/-! ## Claims C6, C7, C8: extraction errors, sparsity, determinism -/

theorem startsWithL_self_append (n t : List Char) : startsWithL n (n ++ t) = true := by
  induction n with
  | nil => rfl
  | cons a as ih => simp [startsWithL, ih]

theorem containsL_head (n hay : List Char) (h : startsWithL n hay = true) :
    containsL n hay = true := by
  cases hay with
  | nil =>
    cases n with
    | nil => rfl
    | cons a as => simp [startsWithL] at h
  | cons a rest => simp [containsL, h]

theorem containsL_cons (n : List Char) (c : Char) (hay : List Char)
    (h : containsL n hay = true) : containsL n (c :: hay) = true := by
  simp [containsL, h]

theorem containsL_decomp (n pre suf : List Char) : containsL n (pre ++ (n ++ suf)) = true := by
  induction pre with
  | nil => exact containsL_head n (n ++ suf) (startsWithL_self_append n suf)
  | cons c pre ih => exact containsL_cons n c _ ih

theorem joinComma_decomp (s : String) (l : List String) (h : s ∈ l) :
    ∃ pre suf : List Char, (joinComma l).data = pre ++ (s.data ++ suf) := by
  induction l with
  | nil => cases h
  | cons a rest ih =>
    rcases List.mem_cons.mp h with rfl | hmem
    · cases rest with
      | nil => exact ⟨[], [], by simp [joinComma, joinSep]⟩
      | cons r rs =>
        refine ⟨[], (", " ++ joinSep ", " (r :: rs)).data, ?_⟩
        simp only [joinComma, joinSep, String.data_append, List.nil_append,
          List.append_assoc]
    · cases rest with
      | nil => cases hmem
      | cons r rs =>
        obtain ⟨pre, suf, hd⟩ := ih hmem
        refine ⟨(a ++ ", ").data ++ pre, suf, ?_⟩
        simp only [joinComma, joinSep] at hd ⊢
        rw [String.data_append, String.data_append, hd]
        simp [List.append_assoc]

/-- C6: extracting an absent sheet name fails with the enumerating error:
the result is the `SheetNotFoundError`-style message and every available
sheet name occurs inside that message. -/
theorem claim6_missing_sheet (wb : Workbook) (name : String)
    (h : wb.sheetnames.contains name = false) :
    extract_single_sheet wb name = Except.error (sheetErrMsg name wb.sheetnames) ∧
    ∀ s ∈ wb.sheetnames, containsL s.data (sheetErrMsg name wb.sheetnames).data = true := by
  constructor
  · have h' : name ∉ wb.sheetnames := by
      intro hm
      have htrue : wb.sheetnames.contains name = true := List.elem_eq_true_of_mem hm
      rw [htrue] at h
      cases h
    simp [extract_single_sheet, h']
  · intro s hs
    obtain ⟨pre, suf, hd⟩ := joinComma_decomp s wb.sheetnames hs
    rw [sheetErrMsg, String.data_append, hd, ← List.append_assoc]
    exact containsL_decomp s.data _ suf

/-- C6 witness: the workbook containing only "Data" rejects "Sheet1" with a
message containing "Data". -/
theorem claim6_witness :
    extract_single_sheet dataOnlyWorkbook "Sheet1" =
      Except.error (sheetErrMsg "Sheet1" ["Data"]) ∧
    containsL "Data".data (sheetErrMsg "Sheet1" ["Data"]).data = true := by
  have h := claim6_missing_sheet dataOnlyWorkbook "Sheet1" (by decide)
  exact ⟨h.1, h.2 "Data" (by decide)⟩

/-- C7: a coordinate key is present in the extracted cells exactly when the
container reports a cell there whose value is non-null or which has at
least one styling attribute set; in particular a null-valued unstyled cell
is never materialized. -/
theorem claim7_cells_sparsity (ws : List CellInput) (coord : String) :
    coord ∈ (extract_worksheet_cells ws).map Prod.fst ↔
      ∃ c ∈ ws, c.coordinate = coord ∧ (c.value ≠ Value.vNone ∨ c.has_style = true) := by
  simp only [extract_worksheet_cells, List.mem_map, List.mem_filterMap]
  constructor
  · rintro ⟨p, ⟨c, hc, hfc⟩, hp1⟩
    by_cases hcond : (!(c.value == Value.vNone)) || c.has_style
    · rw [if_pos hcond] at hfc
      cases hfc
      refine ⟨c, hc, hp1, ?_⟩
      have hcond' : (¬ c.value = Value.vNone) ∨ c.has_style = true := by
        simpa using hcond
      exact hcond'
    · rw [if_neg hcond] at hfc
      cases hfc
  · rintro ⟨c, hc, rfl, hcond⟩
    refine ⟨(c.coordinate, c.value), ⟨c, hc, if_pos ?_⟩, rfl⟩
    rcases hcond with hv | hs
    · simp [hv]
    · simp [hs]

/-- C8: both serializers are deterministic functions of the snapshot —
serializing the same extracted data twice yields identical text both times,
for the structured (JSON) output and for the Markdown rendering. -/
theorem claim8_serializer_deterministic (base : String)
    (sheets : List (String × SheetData)) :
    generate_markdown base sheets = generate_markdown base sheets ∧
    save_to_json sheets = save_to_json sheets :=
  ⟨rfl, rfl⟩

/-! ## Claim C5: the one-shot archive-scan fallback -/

theorem extract_images_true_flag (n : String) (a : List AttachedImage)
    (nl : List String) (pos : PosMap) : (extract_images true n a nl pos).2 = true := by
  rw [extract_images]
  split
  · rfl
  · rfl

theorem extract_images_attached (flag : Bool) (n : String) (x : AttachedImage)
    (xs : List AttachedImage) (nl : List String) (pos : PosMap) :
    extract_images flag n (x :: xs) nl pos = (attachedRecords n (x :: xs) pos, flag) :=
  rfl

theorem extract_images_fallback (n : String) (nl : List String) (pos : PosMap) :
    extract_images false n [] nl pos = (mediaRecordsOf nl pos, true) :=
  rfl

theorem runSheets_true (nl : List String) (pos : PosMap) (sheets : List SheetInput) :
    runSheets nl pos true sheets =
      (sheets.map (fun s => ((extract_images true s.name s.attached nl pos).1, false)), true) := by
  induction sheets with
  | nil => rfl
  | cons s rest ih =>
    simp only [runSheets, extract_images_true_flag, ih, List.map_cons, Bool.not_true,
      Bool.false_and]

theorem enumFrom_length {α : Type} (i : Nat) (l : List α) :
    (enumFrom i l).length = l.length := by
  induction l generalizing i with
  | nil => rfl
  | cons a as ih => simp [enumFrom, ih]

theorem runSheets_cons_attached (nl : List String) (pos : PosMap) (s : SheetInput)
    (rest : List SheetInput) (h : s.attached ≠ []) :
    runSheets nl pos false (s :: rest) =
      ((attachedRecords s.name s.attached pos, false) :: (runSheets nl pos false rest).1,
        (runSheets nl pos false rest).2) := by
  obtain ⟨y, ys, hxa⟩ : ∃ y ys, s.attached = y :: ys := by
    cases hsa : s.attached with
    | nil => exact absurd hsa h
    | cons y ys => exact ⟨y, ys, rfl⟩
  simp only [runSheets, hxa, extract_images_attached, Bool.not_false, Bool.and_false]

theorem runSheets_cons_fallback (nl : List String) (pos : PosMap)
    (rest : List SheetInput) (sn : String) :
    runSheets nl pos false (⟨sn, []⟩ :: rest) =
      ((mediaRecordsOf nl pos, true) ::
        rest.map (fun x => ((extract_images true x.name x.attached nl pos).1, false)), true) := by
  simp only [runSheets, extract_images_fallback, runSheets_true, Bool.not_false, Bool.true_and]

/-- C5: for one extractor instance started with a fresh flag, the
archive-scan fallback runs at most once over all sheet extractions; it runs
exactly on the first sheet whose attached-image strategy yields nothing,
attaching to it one record per media blob of the archive, and every later
sheet is processed with the flag set and never triggers the fallback again. -/
theorem claim5_fallback_once (nl : List String) (pos : PosMap) :
    (∀ sheets : List SheetInput,
      (((runSheets nl pos false sheets).1.map (fun p => p.2)).count true) ≤ 1) ∧
    (∀ (p q : List SheetInput) (s : SheetInput),
      (∀ x ∈ p, x.attached ≠ []) → s.attached = [] →
      (runSheets nl pos false (p ++ s :: q)).1 =
        p.map (fun x => (attachedRecords x.name x.attached pos, false)) ++
          (mediaRecordsOf nl pos, true) ::
          q.map (fun x => ((extract_images true x.name x.attached nl pos).1, false))) ∧
    (mediaRecordsOf nl pos).length = (nl.filter isMediaFile).length := by
  refine ⟨?_, ?_, ?_⟩
  · intro sheets
    induction sheets with
    | nil => simp [runSheets]
    | cons s rest ih =>
      by_cases ha : s.attached = []
      · cases s with
        | mk sn sa =>
          have hsa : sa = [] := ha
          subst hsa
          rw [runSheets_cons_fallback]
          rw [List.map_cons, List.count_cons]
          have h0 : ((rest.map (fun x =>
              ((extract_images true x.name x.attached nl pos).1, false))).map
                (fun p => p.2)).count true = 0 := by
            rw [List.map_map, List.count_eq_zero]
            intro hmem
            simp [Function.comp] at hmem
          rw [h0]
          simp
      · rw [runSheets_cons_attached nl pos s rest ha]
        rw [List.map_cons, List.count_cons]
        simpa using ih
  · intro p q s
    induction p with
    | nil =>
      intro hp hs
      cases s with
      | mk sn sa =>
        have hsa : sa = [] := hs
        subst hsa
        rw [List.nil_append, runSheets_cons_fallback]
        simp
    | cons x p' ih =>
      intro hp hs
      have hx : x.attached ≠ [] := hp x (List.mem_cons_self x p')
      have hp' : ∀ z ∈ p', z.attached ≠ [] := fun z hz => hp z (List.mem_cons_of_mem x hz)
      rw [List.cons_append, runSheets_cons_attached nl pos x _ hx, List.map_cons,
        List.cons_append]
      exact congrArg _ (ih hp' hs)
  · rw [mediaRecordsOf, List.length_map, enumFrom_length]

/-- C5 witness: on a three-sheet workbook whose second sheet is the first
without attached images, the fallback runs exactly there, attaching the
archive's one media blob, and never runs again. -/
theorem claim5_witness :
    (((runSheets witNamelist [] false witSheets).1.map (fun p => p.2)).count true) ≤ 1 ∧
    (runSheets witNamelist [] false witSheets).1 =
      [witSheetA].map (fun x => (attachedRecords x.name x.attached [], false)) ++
        (mediaRecordsOf witNamelist [], true) ::
        [witSheetC].map (fun x => ((extract_images true x.name x.attached witNamelist []).1,
          false)) ∧
    (mediaRecordsOf witNamelist []).length = (witNamelist.filter isMediaFile).length := by
  refine ⟨(claim5_fallback_once witNamelist []).1 witSheets, ?_,
    (claim5_fallback_once witNamelist []).2.2⟩
  exact (claim5_fallback_once witNamelist []).2.1 [witSheetA] [witSheetC] witSheetB
    (by decide) (by decide)

/-! ## Claim C2: the concrete rendering scenario -/

/-- C2: rendering the snapshot with merge A1:B1, A1 = "Title", one image
anchored at rows 3–4 / columns 0–1, and populated data rows 1 and 5
produces, in order: the table with data row 1, a table interruption holding
the image block (anchor-range label, blank line, image reference) between
rows 1 and 5, and the reopened table header followed by the row-5 data row. -/
theorem claim2_render_scenario :
    sheetLines "Sheet1" titleSheet =
      ["## Sheet1", "",
       "| A |", "|---|",
       "| Title |",
       "",
       "**Image at A4 to B5:**", "",
       "![Image](Sheet1_image_1.png)", "",
       "| A |", "|---|",
       "| End |",
       ""] := by
  decide

/-! ## Claim C1: image grouping by display row -/

theorem lookupA_insertEntry (acc : List (Nat × List ImgEntry)) (k : Nat) (e : ImgEntry)
    (r : Nat) :
    lookupA (insertEntry acc k e) r =
      if r = k then some ((lookupA acc r).getD [] ++ [e]) else lookupA acc r := by
  induction acc with
  | nil =>
    by_cases h : r = k
    · simp [insertEntry, lookupA, h]
    · simp [insertEntry, lookupA, h, Ne.symm h]
  | cons hd tl ih =>
    obtain ⟨k1, es1⟩ := hd
    by_cases h1 : k1 = k
    · subst h1
      by_cases h2 : r = k1
      · subst h2
        simp [insertEntry, lookupA]
      · simp [insertEntry, lookupA, h2, Ne.symm h2]
    · by_cases h2 : k1 = r
      · subst h2
        simp [insertEntry, lookupA, h1, fun h => h1 (Eq.symm h)]
      · simp [insertEntry, lookupA, h1, h2, ih]

theorem buildIBR_lookup (images : List ImageRecord) (acc : List (Nat × List ImgEntry))
    (r : Nat) :
    lookupA (images.foldl (fun acc img =>
      match img.position with
      | none => acc
      | some rect => insertEntry acc (rect.fromRow + 1) (entryOfRect img.filename rect))
      acc) r =
      if groupOf images r = [] then lookupA acc r
      else some ((lookupA acc r).getD [] ++ groupOf images r) := by
  induction images generalizing acc with
  | nil => simp [groupOf]
  | cons img rest ih =>
    simp only [List.foldl_cons]
    cases hp : img.position with
    | none =>
      rw [ih]
      simp [groupOf, List.filterMap_cons, entryAt, hp]
    | some rect =>
      rw [ih]
      by_cases hr : rect.fromRow + 1 = r
      · have hg : groupOf (img :: rest) r =
            entryOfRect img.filename rect :: groupOf rest r := by
          simp [groupOf, List.filterMap_cons, entryAt, hp, hr]
        rw [hg, lookupA_insertEntry, if_pos hr.symm]
        cases hrest : groupOf rest r with
        | nil => simp
        | cons g gs => simp [List.append_assoc]
      · have hg : groupOf (img :: rest) r = groupOf rest r := by
          simp [groupOf, List.filterMap_cons, entryAt, hp, hr]
        rw [hg, lookupA_insertEntry]
        have hne : ¬ r = rect.fromRow + 1 := fun h => hr h.symm
        rw [if_neg hne]

theorem imgline_mem_noCellImages (images : List ImageRecord) (img : ImageRecord)
    (h : img ∈ images) :
    ("![Image](" ++ img.filename ++ ")") ∈ noCellImagesLines images := by
  rw [noCellImagesLines, List.mem_flatten]
  refine ⟨(match img.position with
    | some rect =>
      ["**Image at " ++ get_column_letter (rect.fromCol + 1) ++
         toString (rect.fromRow + 1) ++ " to " ++
         get_column_letter (rect.toCol + 1) ++ toString (rect.toRow + 1) ++ ":**"]
    | none => []) ++
    ["", "![Image](" ++ img.filename ++ ")", ""], List.mem_map.mpr ⟨img, h, rfl⟩, ?_⟩
  apply List.mem_append_right
  simp

/-- C1 counterexample: a sheet with cell data and an image of unresolved
position never emits that image in its rendered output — its reference line
appears nowhere in the sheet's Markdown lines. -/
theorem claim1_counterexample : "![Image](ghost.png)" ∉ sheetLines "S" ghostSheet := by
  decide

/-- C1 (amended): grouping by display row places every resolved image in
exactly one row group (the one keyed `fromRow + 1`) and an unresolved image
in no group; an unresolved image is still emitted in the sheet's output only
when the sheet has no cell data at all (strategy 6) — with cell data present,
unresolved images are omitted from the rendered document. -/
theorem claim1_image_grouping :
    (∀ (images : List ImageRecord) (r : Nat),
      lookupA (buildImageByRow images) r =
        if groupOf images r = [] then none else some (groupOf images r)) ∧
    (∀ (img : ImageRecord) (rect : Rect), img.position = some rect →
      entryAt img (rect.fromRow + 1) = some (entryOfRect img.filename rect) ∧
      ∀ r : Nat, entryAt img r ≠ none → r = rect.fromRow + 1) ∧
    (∀ img : ImageRecord, img.position = none → ∀ r : Nat, entryAt img r = none) ∧
    (∀ (name : String) (sd : SheetData), sd.cells = [] → ∀ img ∈ sd.images,
      ("![Image](" ++ img.filename ++ ")") ∈ sheetLines name sd) := by
  refine ⟨?_, ?_, ?_, ?_⟩
  · intro images r
    rw [buildImageByRow, buildIBR_lookup]
    simp [lookupA]
  · intro img rect h
    refine ⟨by simp [entryAt, h], ?_⟩
    intro r hne
    rw [entryAt, h] at hne
    by_cases hr : rect.fromRow + 1 = r
    · exact hr.symm
    · simp [hr] at hne
  · intro img h r
    simp [entryAt, h]
  · intro name sd hc img hm
    have h1 := imgline_mem_noCellImages sd.images img hm
    have himgs : sd.images.isEmpty = false := by
      cases hi : sd.images with
      | nil => rw [hi] at hm; cases hm
      | cons a as => rfl
    rw [sheetLines, hc]
    simp only [List.isEmpty_nil, if_true, himgs, if_false, Bool.false_eq_true]
    exact List.mem_append_left _ (List.mem_append_left _ (List.mem_append_right _ h1))

/-- C1 witness: concrete instantiation of all four conjuncts. -/
theorem claim1_witness :
    lookupA (buildImageByRow titleSheet.images) 4 =
      (if groupOf titleSheet.images 4 = [] then none else some (groupOf titleSheet.images 4)) ∧
    entryAt ⟨"Sheet1_image_1.png", "PNG", some ⟨0, 3, 1, 4⟩⟩ 4 =
      some (entryOfRect "Sheet1_image_1.png" ⟨0, 3, 1, 4⟩) ∧
    entryAt ⟨"ghost.png", "PNG", none⟩ 7 = none ∧
    ("![Image](" ++ "noCells.png" ++ ")") ∈ sheetLines "S" noCellsSheet := by
  refine ⟨claim1_image_grouping.1 titleSheet.images 4,
    (claim1_image_grouping.2.1 ⟨"Sheet1_image_1.png", "PNG", some ⟨0, 3, 1, 4⟩⟩
      ⟨0, 3, 1, 4⟩ rfl).1,
    claim1_image_grouping.2.2.1 ⟨"ghost.png", "PNG", none⟩ rfl 7,
    claim1_image_grouping.2.2.2 "S" noCellsSheet rfl ⟨"noCells.png", "PNG", none⟩ (by decide)⟩

/-! ## Claim C9: double emission of an image block between gapped rows -/

theorem head_append_str (s t : String) (c : Char) (h : s.data.head? = some c) :
    (s ++ t).data.head? = some c := by
  rw [String.data_append]
  cases hs : s.data with
  | nil => rw [hs] at h; simp at h
  | cons a as =>
    rw [hs] at h
    simp only [List.head?_cons, Option.some.injEq] at h
    subst h
    rfl

theorem str_ne_of_head (a b : String) (ca cb : Char) (ha : a.data.head? = some ca)
    (hb : b.data.head? = some cb) (hne : ca ≠ cb) : a ≠ b := by
  intro he
  subst he
  rw [ha] at hb
  simp only [Option.some.injEq] at hb
  exact hne hb

theorem str_ne_empty_of_head (b : String) (c : Char) (h : b.data.head? = some c) :
    "" ≠ b := by
  intro he
  rw [← he] at h
  simp at h

theorem imgline_head (f : String) : ("![Image](" ++ f ++ ")").data.head? = some '!' :=
  head_append_str _ ")" _ (head_append_str "![Image](" f _ (by decide))

theorem count_imageBlock_one (e : ImgEntry) (f : String) (he : e.filename = f) :
    (imageBlock [e]).count ("![Image](" ++ f ++ ")") = 1 := by
  subst he
  have hbl : imageBlock [e] =
      ["**Image at " ++ e.position_text ++ ":**", "",
        "![Image](" ++ e.filename ++ ")", ""] := by
    simp [imageBlock]
  rw [hbl]
  have h1 : (("**Image at " ++ e.position_text ++ ":**") ==
      ("![Image](" ++ e.filename ++ ")")) = false :=
    beq_eq_false_iff_ne.mpr
      (str_ne_of_head _ _ '*' '!'
        (head_append_str _ _ _ (head_append_str "**Image at " e.position_text _ (by decide)))
        (imgline_head _) (by decide))
  have h2 : (("" : String) == ("![Image](" ++ e.filename ++ ")")) = false :=
    beq_eq_false_iff_ne.mpr (str_ne_empty_of_head _ '!' (imgline_head _))
  simp [List.count_cons, List.count_nil, h1, h2]

theorem count_header_zero (cols : List String) (f : String) :
    (tableHeaderLines cols).count ("![Image](" ++ f ++ ")") = 0 := by
  rw [List.count_eq_zero]
  intro hm
  rw [tableHeaderLines] at hm
  rcases List.mem_cons.mp hm with h | hm2
  · exact str_ne_of_head _ _ '!' '|' (imgline_head f)
      (head_append_str _ _ _ (head_append_str "| " _ _ (by decide))) (by decide) h
  · rcases List.mem_cons.mp hm2 with h | hm3
    · exact str_ne_of_head _ _ '!' '|' (imgline_head f)
        (head_append_str _ _ _ (head_append_str "|" _ _ (by decide))) (by decide) h
    · cases hm3

theorem count_blank_zero (f : String) :
    ([""] : List String).count ("![Image](" ++ f ++ ")") = 0 := by
  rw [List.count_eq_zero]
  intro hm
  rcases List.mem_cons.mp hm with h | hm2
  · exact str_ne_empty_of_head _ '!' (imgline_head f) h.symm
  · cases hm2

theorem count_blockfull (cols : List String) (e : ImgEntry) (f : String)
    (he : e.filename = f) :
    (([""] ++ imageBlock [e] ++ tableHeaderLines cols)).count ("![Image](" ++ f ++ ")") = 1 := by
  rw [List.count_append, List.count_append, count_blank_zero, count_imageBlock_one e f he,
    count_header_zero]

theorem count_blocknohdr (e : ImgEntry) (f : String) (he : e.filename = f) :
    (([""] ++ imageBlock [e])).count ("![Image](" ++ f ++ ")") = 1 := by
  rw [List.count_append, count_blank_zero, count_imageBlock_one e f he]

theorem count_dataRow_zero (cells : List (String × Value)) (cols : List String)
    (r : Nat) (f : String) :
    ([dataRowLine cells cols r]).count ("![Image](" ++ f ++ ")") = 0 := by
  rw [List.count_eq_zero]
  intro hm
  rcases List.mem_cons.mp hm with h | hm2
  · exact str_ne_of_head _ _ '!' '|' (imgline_head f)
      (head_append_str _ _ _ (head_append_str "| " _ _ (by decide))) (by decide) h
  · cases hm2

theorem lookupA_single {α : Type} (k r : Nat) (v : α) :
    lookupA [(k, v)] r = if k = r then some v else none :=
  rfl

theorem gapLines_succ (ibr : List (Nat × List ImgEntry)) (cols : List String)
    (lo n : Nat) :
    gapLines ibr cols lo (n + 1) =
      (match lookupA ibr lo with
       | none => []
       | some es => [""] ++ imageBlock es ++ tableHeaderLines cols) ++
        gapLines ibr cols (lo + 1) n := by
  rw [gapLines, gapLines, List.range'_succ, List.map_cons, List.flatten_cons]

theorem count_gap (cols : List String) (e : ImgEntry) (f : String) (he : e.filename = f)
    (k lo cnt : Nat) :
    (gapLines [(k, [e])] cols lo cnt).count ("![Image](" ++ f ++ ")") =
      if lo ≤ k ∧ k < lo + cnt then 1 else 0 := by
  induction cnt generalizing lo with
  | zero =>
    have h0 : gapLines [(k, [e])] cols lo 0 = [] := by
      rw [gapLines]
      rfl
    rw [h0, List.count_nil, if_neg (by omega)]
  | succ n ih =>
    rw [gapLines_succ, List.count_append, lookupA_single, ih]
    by_cases hk : k = lo
    · rw [if_pos hk]
      show (([""] ++ imageBlock [e] ++ tableHeaderLines cols).count
          ("![Image](" ++ f ++ ")")) + _ = _
      rw [count_blockfull cols e f he]
      split_ifs <;> omega
    · rw [if_neg hk]
      show (([] : List String).count ("![Image](" ++ f ++ ")")) + _ = _
      rw [List.count_nil]
      split_ifs <;> omega

theorem rowSegment_hit (cells : List (String × Value)) (cols : List String)
    (e : ImgEntry) (maxRow last r : Nat) :
    rowSegment cells cols [(r + 1, [e])] maxRow last r =
      gapLines [(r + 1, [e])] cols (last + 1) (r - (last + 1)) ++
        [dataRowLine cells cols r] ++
        ([""] ++ imageBlock [e] ++ (if r < maxRow then tableHeaderLines cols else [])) := by
  rw [rowSegment, lookupA_single, if_pos rfl]

theorem rowSegment_miss (cells : List (String × Value)) (cols : List String)
    (e : ImgEntry) (k maxRow last r : Nat) (hk : ¬ k = r + 1) :
    rowSegment cells cols [(k, [e])] maxRow last r =
      gapLines [(k, [e])] cols (last + 1) (r - (last + 1)) ++
        [dataRowLine cells cols r] := by
  rw [rowSegment, lookupA_single, if_neg hk]
  exact List.append_nil _

theorem count_rowSegment (cells : List (String × Value)) (cols : List String)
    (e : ImgEntry) (f : String) (he : e.filename = f) (k maxRow last r : Nat) :
    (rowSegment cells cols [(k, [e])] maxRow last r).count ("![Image](" ++ f ++ ")") =
      (if last + 1 ≤ k ∧ k < (last + 1) + (r - (last + 1)) then 1 else 0) +
        (if k = r + 1 then 1 else 0) := by
  by_cases hk : k = r + 1
  · subst hk
    rw [rowSegment_hit cells cols e maxRow last r, List.count_append, List.count_append,
      count_gap cols e f he, count_dataRow_zero, if_pos rfl]
    by_cases hm : r < maxRow
    · rw [if_pos hm, count_blockfull cols e f he]
    · rw [if_neg hm, List.append_nil, count_blocknohdr e f he]
  · rw [rowSegment_miss cells cols e k maxRow last r hk, List.count_append,
      count_gap cols e f he, count_dataRow_zero, if_neg hk]

theorem renderRows_nil (cells : List (String × Value)) (cols : List String)
    (ibr : List (Nat × List ImgEntry)) (maxRow last : Nat) :
    renderRows cells cols ibr maxRow [] last = [] :=
  rfl

theorem renderRows_cons (cells : List (String × Value)) (cols : List String)
    (ibr : List (Nat × List ImgEntry)) (maxRow r last : Nat) (rest : List Nat) :
    renderRows cells cols ibr maxRow (r :: rest) last =
      rowSegment cells cols ibr maxRow last r ++
        renderRows cells cols ibr maxRow rest r :=
  rfl

theorem renderRows_append (cells : List (String × Value)) (cols : List String)
    (ibr : List (Nat × List ImgEntry)) (maxRow : Nat) (xs ys : List Nat) (last : Nat) :
    renderRows cells cols ibr maxRow (xs ++ ys) last =
      renderRows cells cols ibr maxRow xs last ++
        renderRows cells cols ibr maxRow ys (xs.getLastD last) := by
  induction xs generalizing last with
  | nil => rfl
  | cons x xs' ih =>
    rw [List.cons_append, renderRows_cons, renderRows_cons, ih, List.append_assoc,
      List.getLastD_cons]

theorem count_renderRows_low (cells : List (String × Value)) (cols : List String)
    (e : ImgEntry) (f : String) (he : e.filename = f) (k maxRow : Nat)
    (rows : List Nat) :
    ∀ last, (∀ x ∈ rows, x + 1 < k) →
      (renderRows cells cols [(k, [e])] maxRow rows last).count
        ("![Image](" ++ f ++ ")") = 0 := by
  induction rows with
  | nil => intro last _; rfl
  | cons x rest ih =>
    intro last hall
    rw [renderRows_cons, List.count_append, count_rowSegment cells cols e f he,
      ih x (fun y hy => hall y (List.mem_cons_of_mem x hy))]
    have hx : x + 1 < k := hall x (List.mem_cons_self x rest)
    split_ifs <;> omega

theorem count_renderRows_high (cells : List (String × Value)) (cols : List String)
    (e : ImgEntry) (f : String) (he : e.filename = f) (k maxRow : Nat)
    (rows : List Nat) :
    ∀ last, k ≤ last → (∀ x ∈ rows, k < x) →
      (renderRows cells cols [(k, [e])] maxRow rows last).count
        ("![Image](" ++ f ++ ")") = 0 := by
  induction rows with
  | nil => intro last _ _; rfl
  | cons x rest ih =>
    intro last hlast hall
    have hx : k < x := hall x (List.mem_cons_self x rest)
    rw [renderRows_cons, List.count_append, count_rowSegment cells cols e f he,
      ih x (by omega) (fun y hy => hall y (List.mem_cons_of_mem x hy))]
    split_ifs <;> omega

theorem getLastD_lt (p : List Nat) (r : Nat) (h : ∀ x ∈ p, x < r) :
    ∀ last, last < r → p.getLastD last < r := by
  induction p with
  | nil => intro last hlast; exact hlast
  | cons a as ih =>
    intro last hlast
    rw [List.getLastD_cons]
    exact ih (fun x hx => h x (List.mem_cons_of_mem a hx)) a (h a (List.mem_cons_self a as))

/-- C9: when the sorted populated rows hold two consecutive entries `r` and
`r'` with `r' > r + 1` and the single image group is keyed to display row
`r + 1`, the row loop emits that image block twice — once via the
row-plus-one check after row `r` and once via the gap scan before `r'` —
so the image reference line occurs exactly twice in the loop's output. -/
theorem claim9_double_emission (cells : List (String × Value)) (cols : List String)
    (fname fmt : String) (fc tc tr : Nat) (p q : List Nat) (r r' maxRow last : Nat)
    (hp : ∀ x ∈ p, x < r) (hlast : last < r) (hgap : r + 1 < r')
    (hq : ∀ x ∈ q, r' < x) :
    ((renderRows cells cols (buildImageByRow [⟨fname, fmt, some ⟨fc, r, tc, tr⟩⟩])
        maxRow (p ++ r :: r' :: q) last).count ("![Image](" ++ fname ++ ")")) = 2 ∧
    ((rowSegment cells cols (buildImageByRow [⟨fname, fmt, some ⟨fc, r, tc, tr⟩⟩])
        maxRow (p.getLastD last) r).count ("![Image](" ++ fname ++ ")")) = 1 ∧
    ((rowSegment cells cols (buildImageByRow [⟨fname, fmt, some ⟨fc, r, tc, tr⟩⟩])
        maxRow r r').count ("![Image](" ++ fname ++ ")")) = 1 := by
  have hibr : buildImageByRow [⟨fname, fmt, some ⟨fc, r, tc, tr⟩⟩] =
      [(r + 1, [entryOfRect fname ⟨fc, r, tc, tr⟩])] := rfl
  have he : (entryOfRect fname ⟨fc, r, tc, tr⟩).filename = fname := rfl
  have hL : (p.getLastD last) < r := getLastD_lt p r hp last hlast
  refine ⟨?_, ?_, ?_⟩
  · rw [hibr, renderRows_append, List.count_append,
      count_renderRows_low cells cols _ fname he (r + 1) maxRow p last
        (fun x hx => by have := hp x hx; omega),
      renderRows_cons, renderRows_cons, List.count_append, List.count_append,
      count_rowSegment cells cols _ fname he, count_rowSegment cells cols _ fname he,
      count_renderRows_high cells cols _ fname he (r + 1) maxRow q r' (by omega)
        (fun x hx => by have := hq x hx; omega)]
    split_ifs <;> omega
  · rw [hibr, count_rowSegment cells cols _ fname he]
    split_ifs <;> omega
  · rw [hibr, count_rowSegment cells cols _ fname he]
    split_ifs <;> omega

/-- C9 witness: rows 1 and 3 populated, one image anchored at internal row
1 (display row 2): its reference line is emitted exactly twice — once by
the row-1 segment (the row-plus-one check) and once by the row-3 segment
(the gap scan). -/
theorem claim9_witness :
    ((renderRows [("A1", Value.vStr "a"), ("A3", Value.vStr "b")] ["A"]
        (buildImageByRow [⟨"dup.png", "PNG", some ⟨0, 1, 0, 1⟩⟩]) 3
        ([] ++ 1 :: 3 :: []) 0).count ("![Image](" ++ "dup.png" ++ ")")) = 2 ∧
    ((rowSegment [("A1", Value.vStr "a"), ("A3", Value.vStr "b")] ["A"]
        (buildImageByRow [⟨"dup.png", "PNG", some ⟨0, 1, 0, 1⟩⟩]) 3 0 1).count
      ("![Image](" ++ "dup.png" ++ ")")) = 1 ∧
    ((rowSegment [("A1", Value.vStr "a"), ("A3", Value.vStr "b")] ["A"]
        (buildImageByRow [⟨"dup.png", "PNG", some ⟨0, 1, 0, 1⟩⟩]) 3 1 3).count
      ("![Image](" ++ "dup.png" ++ ")")) = 1 :=
  claim9_double_emission [("A1", Value.vStr "a"), ("A3", Value.vStr "b")] ["A"]
    "dup.png" "PNG" 0 0 1 [] [] 1 3 3 0 (by simp) (by decide) (by decide) (by simp)
